import Mathlib

/-!
Shallow embedding of the behaviour-tree engine in
`behaviour_tree_test/BehaviourTree.h`, together with proofs of the
specification's testable properties.

Modelling conventions:
* A node's `run()` method may have side effects on externally bound state,
  so a child node is modelled as a state transformer `σ → Bool × σ`:
  it returns its boolean verdict and the updated state.  Instantiating `σ`
  with `Nat` and making each evaluation bump the counter turns the state
  into an evaluation counter, which makes "evaluates the child exactly k
  times" a provable statement (the spec's "counting stub node").
* `T*` pointers held in variable slots are modelled as `Option Door`
  (`none` = null pointer); the stacks of the door example hold valid
  `Door` pointers, modelled as `Door` values.
* `std::stack<T*>` is modelled as `List Door` with the head as the top.
* A `std::cout` diagnostic line is modelled as the `String` it prints.
* C++ behaviour with no defined result (dereferencing a null pointer,
  a loop that never terminates) is modelled by an `Option` result being
  `none`.
-/

namespace BehaviourTree

/-- A door of the example program (`struct Door { int doorNumber; }`). -/
structure Door where
  doorNumber : Int
deriving DecidableEq, Repr

/-- A behaviour-tree node's `run()`: from the current external state it
produces a verdict and the new state. -/
def NodeFun (σ : Type) : Type := σ → Bool × σ

/-- The loop body shared verbatim by `Selector::run` and
`RandomSelector::run`: evaluate the children in the order given; return
`true` at the first child that succeeds, without evaluating the rest;
return `false` after all children failed. -/
def runFirstSuccess {σ : Type} : List (NodeFun σ) → σ → Bool × σ
  | [], s => (false, s)
  | child :: rest, s =>
    let r := child s
    if r.1 then (true, r.2) else runFirstSuccess rest r.2

/-- `BehaviourTree::Selector::run`: iterates `getChildren()` in list
order, short-circuiting on the first success. -/
def Selector.run {σ : Type} (children : List (NodeFun σ)) (s : σ) : Bool × σ :=
  runFirstSuccess children s

/-- The loop of `BehaviourTree::Sequence::run`: evaluate children in list
order; return `false` at the first child that fails, without evaluating
the rest; return `true` after all children succeeded. -/
def Sequence.run {σ : Type} : List (NodeFun σ) → σ → Bool × σ
  | [], s => (true, s)
  | child :: rest, s =>
    let r := child s
    if r.1 then Sequence.run rest r.2 else (false, r.2)

/-- `CompositeNode::childrenShuffled`: copies the children list into a
temporary and shuffles the copy (`std::random_shuffle`); the shuffle
itself is modelled as an arbitrary reordering function supplied as a
parameter. -/
def childrenShuffled {α : Type} (shuffle : List α → List α) (children : List α) : List α :=
  let temp := children
  shuffle temp

/-- `BehaviourTree::RandomSelector::run`: the Selector loop over
`childrenShuffled()`.  The member children list is never written by the
method, so the model returns it unchanged alongside the verdict. -/
def RandomSelector.run {σ : Type} (shuffle : List (NodeFun σ) → List (NodeFun σ))
    (children : List (NodeFun σ)) (s : σ) : (Bool × σ) × List (NodeFun σ) :=
  (runFirstSuccess (childrenShuffled shuffle children) s, children)

/-- A stub child with a fixed verdict `r` that counts how often it is
evaluated (the spec's "counting stub node"). -/
def stubChild (r : Bool) : NodeFun Nat := fun c => (r, c + 1)

/-- A child with no state effects, with fixed verdict `r`: its result
does not depend on evaluation order. -/
def pureChild (r : Bool) : NodeFun Unit := fun _ => (r, ())

/-- A deterministic child whose i-th evaluation (0-based) returns `f i`;
the state counts the evaluations made so far. -/
def countChild (f : Nat → Bool) : NodeFun Nat := fun k => (f k, k + 1)

/-! ### Lemmas about the Selector loop over counting stubs -/

lemma runFirstSuccess_stub_fst (rs : List Bool) (c : Nat) :
    (runFirstSuccess (rs.map stubChild) c).1 = rs.any id := by
  induction rs generalizing c with
  | nil => rfl
  | cons r rs ih =>
    cases r <;> simp [runFirstSuccess, stubChild, ih]

lemma runFirstSuccess_stub_allFalse (rs : List Bool) (c : Nat)
    (h : ∀ b ∈ rs, b = false) :
    runFirstSuccess (rs.map stubChild) c = (false, c + rs.length) := by
  induction rs generalizing c with
  | nil => rfl
  | cons r rs ih =>
    have hr : r = false := h r (List.mem_cons_self r rs)
    subst hr
    have := ih (c + 1) (fun b hb => h b (List.mem_cons_of_mem _ hb))
    simp [runFirstSuccess, stubChild, this, Prod.ext_iff]
    omega

lemma runFirstSuccess_stub_firstTrue (ts us : List Bool) (c : Nat)
    (h : ∀ b ∈ ts, b = false) :
    runFirstSuccess ((ts ++ true :: us).map stubChild) c = (true, c + ts.length + 1) := by
  induction ts generalizing c with
  | nil => simp [runFirstSuccess, stubChild]
  | cons t ts ih =>
    have ht : t = false := h t (List.mem_cons_self t ts)
    subst ht
    have h2 := ih (c + 1) (fun b hb => h b (List.mem_cons_of_mem _ hb))
    simp [runFirstSuccess, stubChild, Prod.ext_iff] at h2 ⊢
    exact ⟨h2.1, by omega⟩

/-! ### Lemmas about the Sequence loop over counting stubs -/

lemma sequence_run_stub_fst (rs : List Bool) (c : Nat) :
    (Sequence.run (rs.map stubChild) c).1 = rs.all id := by
  induction rs generalizing c with
  | nil => rfl
  | cons r rs ih =>
    cases r <;> simp [Sequence.run, stubChild, ih]

lemma sequence_run_stub_allTrue (rs : List Bool) (c : Nat)
    (h : ∀ b ∈ rs, b = true) :
    Sequence.run (rs.map stubChild) c = (true, c + rs.length) := by
  induction rs generalizing c with
  | nil => rfl
  | cons r rs ih =>
    have hr : r = true := h r (List.mem_cons_self r rs)
    subst hr
    have := ih (c + 1) (fun b hb => h b (List.mem_cons_of_mem _ hb))
    simp [Sequence.run, stubChild, this, Prod.ext_iff]
    omega

lemma sequence_run_stub_firstFalse (ts us : List Bool) (c : Nat)
    (h : ∀ b ∈ ts, b = true) :
    Sequence.run ((ts ++ false :: us).map stubChild) c = (false, c + ts.length + 1) := by
  induction ts generalizing c with
  | nil => simp [Sequence.run, stubChild]
  | cons t ts ih =>
    have ht : t = true := h t (List.mem_cons_self t ts)
    subst ht
    have h2 := ih (c + 1) (fun b hb => h b (List.mem_cons_of_mem _ hb))
    simp [Sequence.run, stubChild, Prod.ext_iff] at h2 ⊢
    exact ⟨h2.1, by omega⟩

/-! ### Claim theorems for the composite nodes -/

/-- C1: for a Selector over children with fixed verdicts `rs` (as counting
stubs starting from evaluation count 0): the verdict is `true` iff at
least one child's verdict is `true` (in particular `false` for zero
children); when the children split as all-false `ts` followed by a `true`
child, exactly the first `ts.length + 1` children are evaluated; when all
children are false, all `rs.length` children are evaluated. -/
theorem selector_run_spec (rs : List Bool) :
    ((Selector.run (rs.map stubChild) 0).1 = true ↔ ∃ b ∈ rs, b = true)
    ∧ (∀ ts us, rs = ts ++ true :: us → (∀ b ∈ ts, b = false) →
        Selector.run (rs.map stubChild) 0 = (true, ts.length + 1))
    ∧ ((∀ b ∈ rs, b = false) →
        Selector.run (rs.map stubChild) 0 = (false, rs.length)) := by
  refine ⟨?_, ?_, ?_⟩
  · rw [show (Selector.run (rs.map stubChild) 0).1 = rs.any id from
      runFirstSuccess_stub_fst rs 0]
    simp [List.any_eq_true]
  · intro ts us hsplit hts
    subst hsplit
    have := runFirstSuccess_stub_firstTrue ts us 0 hts
    simpa [Selector.run] using this
  · intro hall
    have := runFirstSuccess_stub_allFalse rs 0 hall
    simpa [Selector.run] using this

/-- Witness for C1 at children `[false, true, false]`: the run succeeds
after evaluating exactly the first two children. -/
theorem selector_run_spec_witness :
    Selector.run ([false, true, false].map stubChild) 0 = (true, 2) := by
  have h := (selector_run_spec [false, true, false]).2.1 [false] [false] rfl
    (by decide)
  simpa using h

/-- C2: for a Sequence over children with fixed verdicts `rs` (as counting
stubs starting from evaluation count 0): the verdict is `true` iff every
child's verdict is `true` (in particular `true` for zero children); when
the children split as all-true `ts` followed by a `false` child, exactly
the first `ts.length + 1` children are evaluated; when all children are
true, all `rs.length` children are evaluated. -/
theorem sequence_run_spec (rs : List Bool) :
    ((Sequence.run (rs.map stubChild) 0).1 = true ↔ ∀ b ∈ rs, b = true)
    ∧ (∀ ts us, rs = ts ++ false :: us → (∀ b ∈ ts, b = true) →
        Sequence.run (rs.map stubChild) 0 = (false, ts.length + 1))
    ∧ ((∀ b ∈ rs, b = true) →
        Sequence.run (rs.map stubChild) 0 = (true, rs.length)) := by
  refine ⟨?_, ?_, ?_⟩
  · rw [show (Sequence.run (rs.map stubChild) 0).1 = rs.all id from
      sequence_run_stub_fst rs 0]
    simp [List.all_eq_true]
  · intro ts us hsplit hts
    subst hsplit
    have := sequence_run_stub_firstFalse ts us 0 hts
    simpa using this
  · intro hall
    have := sequence_run_stub_allTrue rs 0 hall
    simpa using this

/-- Witness for C2 at children `[true, false, true]`: the run fails after
evaluating exactly the first two children. -/
theorem sequence_run_spec_witness :
    Sequence.run ([true, false, true].map stubChild) 0 = (false, 2) := by
  have h := (sequence_run_spec [true, false, true]).2.1 [true] [true] rfl
    (by decide)
  simpa using h

/-! ### Decorators -/

/-- `BehaviourTree::Succeeder::run`: `getChild()->run(); return true;` —
evaluate the child once for its side effects and return success
unconditionally. -/
def Succeeder.run {σ : Type} (child : NodeFun σ) (s : σ) : Bool × σ :=
  let r := child s
  (true, r.2)

/-- The loop `for (int i = 0; i < numRepeats - 1; i++) getChild()->run();`
in `Repeater::run`: evaluate the child `k` times, discarding every
verdict and threading the state. -/
def repeatDiscard {σ : Type} (child : NodeFun σ) : Nat → σ → σ
  | 0, s => s
  | k + 1, s => repeatDiscard child k (child s).2

/-- `BehaviourTree::Repeater::run` with repeat count `numRepeats`
(`NOT_FOUND = -1` is the unbounded sentinel: `while (true)
getChild()->run();` never terminates, modelled as `none`); otherwise the
child is run `numRepeats - 1` times with results discarded (the loop body
runs `max (numRepeats - 1) 0` times, matching the C++ `for` guard) and
the verdict of one final run is returned. -/
def Repeater.run {σ : Type} (numRepeats : Int) (child : NodeFun σ) (s : σ) :
    Option (Bool × σ) :=
  if numRepeats = -1 then none
  else
    let s1 := repeatDiscard child (numRepeats - 1).toNat s
    some (child s1)

/-- The loop `while (getChild()->run()) {} return true;` of
`BehaviourTree::RepeatUntilFail::run`, with explicit fuel: `none` models
the case where the loop has not exited within `fuel` iterations (in
particular, nontermination when the child never fails). -/
def RepeatUntilFail.run {σ : Type} (child : NodeFun σ) : Nat → σ → Option (Bool × σ)
  | 0, _ => none
  | fuel + 1, s =>
    let r := child s
    if r.1 then RepeatUntilFail.run child fuel r.2 else some (true, r.2)

lemma repeatDiscard_countChild (f : Nat → Bool) (k c : Nat) :
    repeatDiscard (countChild f) k c = c + k := by
  induction k generalizing c with
  | zero => rfl
  | succ k ih => simp [repeatDiscard, countChild, ih]; omega

/-- C8: Succeeder evaluates its child exactly once (the evaluation
counter rises from `c` to `c + 1`) and returns `true` whatever the
child's verdict `f c` was. -/
theorem succeeder_run_spec (f : Nat → Bool) (c : Nat) :
    Succeeder.run (countChild f) c = (true, c + 1) := by
  simp [Succeeder.run, countChild]

/-- C5: a Repeater with a positive count `n` evaluates its child exactly
`n` times (counter `0` to `n`) and returns the verdict `f (n - 1)` of the
`n`-th evaluation, the earlier verdicts being discarded. -/
theorem repeater_run_spec (f : Nat → Bool) (n : Nat) (hn : 0 < n) :
    Repeater.run (n : Int) (countChild f) 0 = some (f (n - 1), n) := by
  have hne : (n : Int) ≠ -1 := by omega
  have htn : ((n : Int) - 1).toNat = n - 1 := by omega
  simp only [Repeater.run, hne, if_false, htn, repeatDiscard_countChild]
  simp [countChild]
  omega

/-- Witness for C5 at `n = 3` and child verdicts true, false, true, ...:
the child runs three times and the third verdict (`true`) is returned. -/
theorem repeater_run_spec_witness :
    Repeater.run (3 : Int) (countChild (fun k => decide (k % 2 = 0))) 0 =
      some (true, 3) := by
  have h := repeater_run_spec (fun k => decide (k % 2 = 0)) 3 (by decide)
  simpa using h

/-- C10: a Repeater constructed with count `0` (neither the `-1` sentinel
nor positive) still evaluates its child exactly once and returns that
single verdict `f 0`. -/
theorem repeater_zero_run_spec (f : Nat → Bool) :
    Repeater.run (0 : Int) (countChild f) 0 = some (f 0, 1) := by
  simp [Repeater.run, repeatDiscard, countChild]

lemma repeatUntilFail_loop (f : Nat → Bool) (m : Nat) :
    ∀ (i fuel : Nat), (∀ j, i ≤ j → j < i + m → f j = true) →
      f (i + m) = false → m < fuel →
      RepeatUntilFail.run (countChild f) fuel i = some (true, i + m + 1) := by
  induction m with
  | zero =>
    intro i fuel _ hfalse hfuel
    obtain ⟨fu, rfl⟩ : ∃ fu, fuel = fu + 1 := ⟨fuel - 1, by omega⟩
    simp only [Nat.add_zero] at hfalse
    simp [RepeatUntilFail.run, countChild, hfalse]
  | succ m ih =>
    intro i fuel htrue hfalse hfuel
    obtain ⟨fu, rfl⟩ : ∃ fu, fuel = fu + 1 := ⟨fuel - 1, by omega⟩
    have hi : f i = true := htrue i (Nat.le_refl i) (by omega)
    have hrec := ih (i + 1) fu (fun j hj1 hj2 => htrue j (by omega) (by omega))
      (by have : i + 1 + m = i + (m + 1) := by omega
          rw [this]; exact hfalse)
      (by omega)
    simp only [RepeatUntilFail.run, countChild, hi, if_true]
    rw [hrec]
    have : i + 1 + m + 1 = i + (m + 1) + 1 := by omega
    rw [this]

/-- C6: when the child's verdict stream has `k` leading successes followed
by a failure, RepeatUntilFail terminates (any fuel above `k` suffices),
returns `true`, and has evaluated the child exactly `k + 1` times. -/
theorem repeatUntilFail_run_spec (f : Nat → Bool) (k fuel : Nat)
    (hlead : ∀ j, j < k → f j = true) (hfail : f k = false) (hfuel : k < fuel) :
    RepeatUntilFail.run (countChild f) fuel 0 = some (true, k + 1) := by
  have h := repeatUntilFail_loop f k 0 fuel
    (fun j hj1 hj2 => hlead j (by omega)) (by simpa using hfail) hfuel
  simpa using h

/-- Witness for C6 with two leading successes and fuel 4: the loop stops
with verdict `true` after exactly three child evaluations. -/
theorem repeatUntilFail_run_spec_witness :
    RepeatUntilFail.run (countChild (fun j => decide (j < 2))) 4 0 =
      some (true, 3) := by
  have h := repeatUntilFail_run_spec (fun j => decide (j < 2)) 2 4
    (by decide) (by decide) (by decide)
  simpa using h

/-! ### Leaf nodes over the blackboard -/

/-- The diagnostic line printed by `SetVariable<Door>::run`
(`std::cout << "The door that was used to get in is door #" <<
variable->doorNumber << "." << std::endl`). -/
def setVariableDiag (d : Door) : String :=
  "The door that was used to get in is door #" ++ toString d.doorNumber ++ "."

/-- `BehaviourTree::SetVariable::run`: `variable = object;` then the
diagnostic prints `variable->doorNumber`, then `return true`.  When the
source slot `object` is null, the copied slot is null and the diagnostic
dereferences a null pointer — undefined behaviour, modelled as `none`.
Otherwise the result carries the new destination-slot value, the emitted
diagnostic, and the verdict. -/
def SetVariable.run (object : Option Door) : Option (Option Door × String × Bool) :=
  let var := object
  match var with
  | none => none
  | some d => some (var, setVariableDiag d, true)

/-- The diagnostic line printed by `PopFromStack<Door>::run`
(`std::cout << "Trying to get through door #" << item->doorNumber << "."
<< std::endl`). -/
def popFromStackDiag (d : Door) : String :=
  "Trying to get through door #" ++ toString d.doorNumber ++ "."

/-- `BehaviourTree::PopFromStack::run`: on an empty stack return `false`
at once; otherwise set the bound item slot to the top element, emit the
diagnostic, pop the stack and return `true`.  The result is the new
stack, the new item slot, the diagnostic if any, and the verdict. -/
def PopFromStack.run (stack : List Door) (item : Option Door) :
    List Door × Option Door × Option String × Bool :=
  match stack with
  | [] => (stack, item, none, false)
  | top :: rest => (rest, some top, some (popFromStackDiag top), true)

/-- The two stacks bound by a `GetStack` node: the destination
(`this->stack`) and the source (`obtainedStack`). -/
structure StacksState where
  srcStack : List Door
  dstStack : List Door
deriving DecidableEq, Repr

/-- `BehaviourTree::GetStack::run`: `this->stack = obtainedStack;` copies
the source stack's current contents into the destination by value; if the
optional bound item `object` is non-null it is pushed on top; the verdict
is always `true`. -/
def GetStack.run (object : Option Door) (s : StacksState) : StacksState × Bool :=
  let copied := s.srcStack
  let copied2 := match object with
    | some o => o :: copied
    | none => copied
  ({ s with dstStack := copied2 }, true)

/-- An arbitrary later mutation of the source stack, leaving the other
slots alone. -/
def mutateSrc (m : List Door → List Door) (s : StacksState) : StacksState :=
  { s with srcStack := m s.srcStack }

/-- C3 counterexample: calling `SetVariable::run` with a null source slot
does not return `true` — the diagnostic dereferences the copied null
pointer, so the run has no defined result at all (modelled as `none`),
contradicting "always succeeds, with no reachable error or crash
branch". -/
theorem setVariable_null_counterexample :
    SetVariable.run none = none := rfl

/-- C3 amended: when the source slot holds a door, `SetVariable::run`
copies it into the destination slot, emits the diagnostic describing the
copied value, and returns `true`; when the source slot is null, the
diagnostic's dereference of the copied pointer leaves the run with no
defined result. -/
theorem setVariable_run_spec (d : Door) :
    SetVariable.run (some d) = some (some d, setVariableDiag d, true)
    ∧ SetVariable.run none = none :=
  ⟨rfl, rfl⟩

/-- C4: on an empty stack `PopFromStack::run` returns `false` and leaves
both the stack and the bound item slot unchanged (and emits nothing); on
a non-empty stack it removes exactly the top element, stores it in the
item slot, emits the diagnostic and returns `true`. -/
theorem popFromStack_run_spec (item : Option Door) (top : Door) (rest : List Door) :
    PopFromStack.run [] item = ([], item, none, false)
    ∧ PopFromStack.run (top :: rest) item =
        (rest, some top, some (popFromStackDiag top), true) :=
  ⟨rfl, rfl⟩

/-- C7: `GetStack::run` returns `true`; it replaces the destination
stack's contents with the source stack's contents at call time, with the
optional bound item pushed on top when non-null; and any later mutation
of the source stack leaves the destination's contents unchanged
(snapshot independence). -/
theorem getStack_run_spec (object : Option Door) (s : StacksState)
    (m : List Door → List Door) :
    (GetStack.run object s).2 = true
    ∧ (GetStack.run object s).1.dstStack =
        (match object with
          | some o => o :: s.srcStack
          | none => s.srcStack)
    ∧ (mutateSrc m (GetStack.run object s).1).dstStack =
        (GetStack.run object s).1.dstStack := by
  refine ⟨rfl, ?_, rfl⟩
  cases object <;> rfl

/-! ### RandomSelector -/

lemma runFirstSuccess_unit_any (l : List (NodeFun Unit)) :
    runFirstSuccess l () = (l.any (fun ch => (ch ()).1), ()) := by
  induction l with
  | nil => rfl
  | cons ch rest ih =>
    rcases hch : ch () with ⟨r, u⟩
    cases u
    cases r <;> simp [runFirstSuccess, hch, ih]

lemma any_eq_of_perm {α : Type} {l1 l2 : List α} (h : l1.Perm l2) (p : α → Bool) :
    l1.any p = l2.any p := by
  rcases hb : l2.any p with _ | _
  · rw [List.any_eq_false] at hb ⊢
    intro x hx
    exact hb x (h.mem_iff.mp hx)
  · rw [List.any_eq_true] at hb ⊢
    obtain ⟨x, hx, hpx⟩ := hb
    exact ⟨x, h.mem_iff.mpr hx, hpx⟩

lemma pureChild_any (rs : List Bool) :
    (rs.map pureChild).any (fun ch => (ch ()).1) = rs.any id := by
  induction rs with
  | nil => rfl
  | cons r rest ih => simp [pureChild, ih]

/-- C9: for order-insensitive children (fixed verdicts `rs`, no state
effects) and any shuffle whose output is a permutation of its input (as
`std::random_shuffle`'s is), `RandomSelector::run` returns `true` iff at
least one child's verdict is `true`, and the node's stored children list
after the call is exactly the list it held before: only the fresh copy
made by `childrenShuffled` is reordered. -/
theorem randomSelector_run_spec (rs : List Bool)
    (shuffle : List (NodeFun Unit) → List (NodeFun Unit))
    (hperm : (childrenShuffled shuffle (rs.map pureChild)).Perm (rs.map pureChild)) :
    RandomSelector.run shuffle (rs.map pureChild) () =
      ((rs.any id, ()), rs.map pureChild) := by
  unfold RandomSelector.run
  rw [runFirstSuccess_unit_any, any_eq_of_perm hperm, pureChild_any]

/-- Witness for C9 with the identity shuffle (a permutation) over
children `[false, true]`: the verdict is `true` and the stored children
list is returned unchanged. -/
theorem randomSelector_run_spec_witness :
    RandomSelector.run id ([false, true].map pureChild) () =
      ((true, ()), [false, true].map pureChild) := by
  have h := randomSelector_run_spec [false, true] id (List.Perm.refl _)
  simpa using h

end BehaviourTree
